import Mathlib

/-!
Verification of the weighted audit-scoring engine of the SilverSurfers
python-scanner service (`scanner_service.py`): the two static audit
catalogues (`LITE_AUDIT_REFS`, `FULL_AUDIT_REFS`), the score aggregation
function `calculate_score`, and the report-envelope assembly shared by
`perform_accessibility_audit` and `_run_camoufox_audit_sync`.

Numbers are modelled as exact rationals (`ℚ`): every arithmetic step of
the source (`score * weight` accumulation, division, multiplication by
100) is exact there, and Python's `round(x, 2)` is modelled as
round-to-nearest-hundredth with ties to even, which is the rounding
Python's built-in `round` performs.
-/

namespace SilverSurfers

/-- One entry of an audit catalogue: `{"id": ..., "weight": ...}` in
`scanner_service.py`. Weights in the source are Python integers. -/
structure AuditRef where
  id : String
  weight : ℕ
deriving DecidableEq, Repr

/-- One produced audit result, as consumed by `calculate_score`: only its
`score` field (a float in `[0,1]`, possibly `None`) and `numericValue`
matter to the core; `score = none` models both a missing `"score"` key and
an explicit `None`, which `result.get("score", 0)` plus the explicit
`is None` check in the source treat identically. -/
structure AuditResult where
  score : Option ℚ
  numericValue : ℚ
deriving DecidableEq, Repr

/-- The results mapping `audits`: a Python dict keyed by audit id, so a
(total) function from ids to an optional result, `none` for an absent key
(`audits.get(audit_id)` returning `None`). -/
abbrev Results : Type := String → Option AuditResult

/-- `LITE_AUDIT_REFS` from `scanner_service.py` lines 48-60. -/
def LITE_AUDIT_REFS : List AuditRef := [
  ⟨"color-contrast", 5⟩,
  ⟨"target-size", 5⟩,
  ⟨"text-font-audit", 5⟩,
  ⟨"viewport", 3⟩,
  ⟨"link-name", 3⟩,
  ⟨"button-name", 3⟩,
  ⟨"label", 3⟩,
  ⟨"heading-order", 2⟩,
  ⟨"is-on-https", 2⟩,
  ⟨"largest-contentful-paint", 1⟩,
  ⟨"cumulative-layout-shift", 1⟩]

/-- `FULL_AUDIT_REFS` from `scanner_service.py` lines 63-85. -/
def FULL_AUDIT_REFS : List AuditRef := [
  ⟨"color-contrast", 10⟩,
  ⟨"target-size", 10⟩,
  ⟨"viewport", 10⟩,
  ⟨"cumulative-layout-shift", 10⟩,
  ⟨"text-font-audit", 15⟩,
  ⟨"layout-brittle-audit", 2⟩,
  ⟨"flesch-kincaid-audit", 15⟩,
  ⟨"largest-contentful-paint", 5⟩,
  ⟨"total-blocking-time", 5⟩,
  ⟨"link-name", 5⟩,
  ⟨"button-name", 5⟩,
  ⟨"label", 5⟩,
  ⟨"interactive-color-audit", 5⟩,
  ⟨"is-on-https", 2⟩,
  ⟨"dom-size", 2⟩,
  ⟨"heading-order", 2⟩,
  ⟨"errors-in-console", 2⟩,
  ⟨"geolocation-on-start", 2⟩]

/-- The per-audit raw score used inside the loop of `calculate_score`
(`scanner_service.py` lines 112-118): `result.get("score", 0) if result
else 0`, with an explicit `None` check forcing `0` — so `0` whenever the
id is absent or its score is null, the stored score otherwise. -/
def rawScore (audits : Results) (audit_id : String) : ℚ :=
  match audits audit_id with
  | some result => result.score.getD 0
  | none => 0

/-- The accumulation loop of `calculate_score` (`scanner_service.py`
lines 109-122): folds over the chosen catalogue, adding
`score * weight` to `total_weighted_score` and `weight` to
`total_weight` for every entry (weight always added, even when the audit
is missing or unscored). -/
def scoreLoop (audits : Results) :
    List AuditRef → ℚ → ℚ → ℚ × ℚ
  | [], total_weighted_score, total_weight =>
      (total_weighted_score, total_weight)
  | audit_ref :: rest, total_weighted_score, total_weight =>
      scoreLoop audits rest
        (total_weighted_score + rawScore audits audit_ref.id * (audit_ref.weight : ℚ))
        (total_weight + (audit_ref.weight : ℚ))

/-- Round a rational to the nearest integer, ties to even — the rounding
Python's built-in `round` applies (banker's rounding). -/
def roundHalfEvenInt (x : ℚ) : ℤ :=
  let f : ℤ := ⌊x⌋
  let frac : ℚ := x - (f : ℚ)
  if frac < 1/2 then f
  else if 1/2 < frac then f + 1
  else if f % 2 = 0 then f else f + 1

/-- Python's `round(x, 2)`: round to the nearest hundredth, ties to
even. -/
def pyRound2 (x : ℚ) : ℚ := ((roundHalfEvenInt (x * 100) : ℤ) : ℚ) / 100

/-- Rounding of a rational to the nearest IEEE-754 binary64 value
(53-bit significand, round to nearest, ties to even), with the exponent
range idealized as unbounded — exact for all values this service
handles, which lie far inside the normal range. Python floats are
binary64, so every float the source stores or divides passes through
this rounding. -/
def fl64 (x : ℚ) : ℚ :=
  if x = 0 then 0
  else if 0 < x then
    ((roundHalfEvenInt (x * (2:ℚ)^((52:ℤ) - Int.log 2 x)) : ℤ) : ℚ) *
      (2:ℚ)^(Int.log 2 x - (52:ℤ))
  else
    -(((roundHalfEvenInt ((-x) * (2:ℚ)^((52:ℤ) - Int.log 2 (-x))) : ℤ) : ℚ) *
      (2:ℚ)^(Int.log 2 (-x) - (52:ℤ)))

/-- The local `final_score` of `calculate_score` (`scanner_service.py`
line 125): `(total_weighted_score / total_weight * 100) if total_weight
> 0 else 0`, computed for an arbitrary catalogue. -/
def final_score_val (audit_refs : List AuditRef) (audits : Results) : ℚ :=
  let p := scoreLoop audits audit_refs 0 0
  if 0 < p.2 then p.1 / p.2 * 100 else 0

/-- Body of `calculate_score` (`scanner_service.py` lines 88-126) for an
arbitrary catalogue: run the loop, guard the division, round to two
decimal places. -/
def calculate_score_core (audit_refs : List AuditRef) (audits : Results) : ℚ :=
  pyRound2 (final_score_val audit_refs audits)

/-- The argument of `calculate_score`: a report dict from which only the
`"audits"` mapping is read (`report.get("audits", {})`). -/
structure ScoreInput where
  audits : Results

/-- `calculate_score(report, is_lite)` from `scanner_service.py` lines
88-126: selects `LITE_AUDIT_REFS` when lite else `FULL_AUDIT_REFS` and
aggregates. -/
def calculate_score (report : ScoreInput) (is_lite : Bool) : ℚ :=
  calculate_score_core (if is_lite then LITE_AUDIT_REFS else FULL_AUDIT_REFS)
    report.audits

/-- The category block of an emitted report. -/
structure Category where
  id : String
  title : String
  score : ℚ
  auditRefs : List AuditRef

/-- The Lighthouse-shaped report envelope assembled by the service; the
`categories` dict always holds exactly one key, kept here as
`categoryId` with its `category` value. -/
structure Report where
  lighthouseVersion : String
  fetchTime : ℚ
  requestedUrl : String
  finalUrl : String
  categoryId : String
  category : Category
  audits : Results

/-- The report-assembly tail shared verbatim by
`perform_accessibility_audit` (`scanner_service.py` lines 376-397) and
`_run_camoufox_audit_sync` (lines 908-928): chooses the category
id/title by variant, computes `final_score = calculate_score(...)`,
stores `final_score / 100` as the category score and the full static
catalogue as `auditRefs`. In the source both `final_score` and the
stored quotient are IEEE binary64 doubles: `final_score` is the double
nearest the aggregator's 2-decimal value, and `final_score / 100`
(lines 390 and 923) is a double division — both roundings are modelled
by `fl64`. -/
def build_report (url final_url : String) (fetch_time : ℚ)
    (audits : Results) (is_lite : Bool) : Report :=
  let category_id := if is_lite then "senior-friendly-lite" else "senior-friendly"
  let category_title :=
    if is_lite then "Senior Accessibility (Lite)" else "Senior Friendliness"
  let fs := calculate_score ⟨audits⟩ is_lite
  { lighthouseVersion := "10.0.0"
    fetchTime := fetch_time
    requestedUrl := url
    finalUrl := final_url
    categoryId := category_id
    category := {
      id := category_id
      title := category_title
      score := fl64 (fl64 fs / 100)
      auditRefs := if is_lite then LITE_AUDIT_REFS else FULL_AUDIT_REFS }
    audits := audits }

/-- Spec-side weighted numerator: the sum over catalogue entries of the
raw score times the declared weight. -/
def specWeightedSum (audit_refs : List AuditRef) (audits : Results) : ℚ :=
  (audit_refs.map (fun a => rawScore audits a.id * (a.weight : ℚ))).sum

/-- Spec-side denominator: the sum of every declared weight. -/
def specWeightSum (audit_refs : List AuditRef) : ℚ :=
  (audit_refs.map (fun a => (a.weight : ℚ))).sum

/-- Modelled from the spec: half-up rounding to the nearest integer, ties
away from zero, as asserted by the specification's sentence "Rounding is
half-up to 2 decimal places". -/
def specRoundHalfUpInt (x : ℚ) : ℤ :=
  if 0 ≤ x then ⌊x + 1/2⌋ else -⌊(-x) + 1/2⌋

/-- Modelled from the spec: round to 2 decimal places, ties away from
zero on the second decimal. -/
def specRoundHalfUp2 (x : ℚ) : ℚ :=
  ((specRoundHalfUpInt (x * 100) : ℤ) : ℚ) / 100

/-- The results mapping consisting only of `color-contrast` with score
`1.0` — the concrete scenario of the specification's §8. -/
def onlyColorContrast : Results := fun s =>
  if s = "color-contrast" then some ⟨some 1, 1⟩ else none

/-- The loop of `calculate_score` computes, over any starting
accumulators, exactly the spec-side weighted numerator and weight
denominator sums. -/
lemma scoreLoop_eq (audits : Results) (refs : List AuditRef) :
    ∀ a b : ℚ,
      scoreLoop audits refs a b =
        (a + specWeightedSum refs audits, b + specWeightSum refs) := by
  induction refs with
  | nil =>
      intro a b
      simp [scoreLoop, specWeightedSum, specWeightSum]
  | cons r rest ih =>
      intro a b
      simp only [scoreLoop, specWeightedSum, specWeightSum, List.map_cons,
        List.sum_cons] at *
      rw [ih]
      simp only [Prod.mk.injEq]
      constructor <;> ring

/-- For a catalogue with positive total weight, `calculate_score_core`
is the rounded weighted mean of the spec-side sums. -/
lemma calculate_score_core_eq (refs : List AuditRef) (audits : Results)
    (h : 0 < specWeightSum refs) :
    calculate_score_core refs audits =
      pyRound2 (specWeightedSum refs audits / specWeightSum refs * 100) := by
  unfold calculate_score_core final_score_val
  rw [scoreLoop_eq]
  simp [h]

lemma lite_weight_sum : specWeightSum LITE_AUDIT_REFS = 33 := by
  norm_num [specWeightSum, LITE_AUDIT_REFS]

lemma full_weight_sum : specWeightSum FULL_AUDIT_REFS = 112 := by
  norm_num [specWeightSum, FULL_AUDIT_REFS]

/-- C1: for every catalogue variant (lite or full) and every results
mapping, `calculate_score` returns the weighted mean
`round((Σ_d rawScore_d · weight_d) / (Σ_d weight_d) · 100, 2)`, where a
definition absent from the results or carrying a null score contributes
`0` to the numerator while its weight always enters the denominator. -/
theorem calculate_score_weighted_average (is_lite : Bool) (audits : Results) :
    calculate_score ⟨audits⟩ is_lite =
      pyRound2
        (specWeightedSum (if is_lite then LITE_AUDIT_REFS else FULL_AUDIT_REFS) audits /
          specWeightSum (if is_lite then LITE_AUDIT_REFS else FULL_AUDIT_REFS) * 100) := by
  cases is_lite <;>
    exact calculate_score_core_eq _ _
      (by norm_num [specWeightSum, LITE_AUDIT_REFS, FULL_AUDIT_REFS])

/-- C2 counterexample: the weights of `FULL_AUDIT_REFS` sum to `112`,
not to `95` as the claim states. -/
theorem full_catalogue_weight_sum_ne_95 :
    (FULL_AUDIT_REFS.map AuditRef.weight).sum = 112 ∧
      ¬ (FULL_AUDIT_REFS.map AuditRef.weight).sum = 95 := by
  constructor <;> decide

/-- C2 amended: the full catalogue has exactly 18 entries, whose weights
sum to `112`, with exactly the per-id weights listed in the claim
(color-contrast=10, target-size=10, viewport=10,
cumulative-layout-shift=10, text-font-audit=15, layout-brittle-audit=2,
flesch-kincaid-audit=15, largest-contentful-paint=5,
total-blocking-time=5, link-name=5, button-name=5, label=5,
interactive-color-audit=5, is-on-https=2, dom-size=2, heading-order=2,
errors-in-console=2, geolocation-on-start=2). -/
theorem full_catalogue_contents :
    FULL_AUDIT_REFS.length = 18 ∧
      (FULL_AUDIT_REFS.map AuditRef.weight).sum = 112 ∧
      FULL_AUDIT_REFS = [
        ⟨"color-contrast", 10⟩,
        ⟨"target-size", 10⟩,
        ⟨"viewport", 10⟩,
        ⟨"cumulative-layout-shift", 10⟩,
        ⟨"text-font-audit", 15⟩,
        ⟨"layout-brittle-audit", 2⟩,
        ⟨"flesch-kincaid-audit", 15⟩,
        ⟨"largest-contentful-paint", 5⟩,
        ⟨"total-blocking-time", 5⟩,
        ⟨"link-name", 5⟩,
        ⟨"button-name", 5⟩,
        ⟨"label", 5⟩,
        ⟨"interactive-color-audit", 5⟩,
        ⟨"is-on-https", 2⟩,
        ⟨"dom-size", 2⟩,
        ⟨"heading-order", 2⟩,
        ⟨"errors-in-console", 2⟩,
        ⟨"geolocation-on-start", 2⟩] :=
  ⟨rfl, by decide, rfl⟩

/-- C3 counterexample: on the full catalogue with results containing
only `color-contrast: 1.0`, `calculate_score` does not return `10.53`
(the denominator is `112`, not `95`). -/
theorem single_color_contrast_score_ne :
    ¬ calculate_score ⟨onlyColorContrast⟩ false = 1053/100 := by
  simp only [calculate_score, calculate_score_core, final_score_val, scoreLoop,
    rawScore, FULL_AUDIT_REFS, onlyColorContrast]
  simp
  norm_num [pyRound2, roundHalfEvenInt]

/-- C3 amended: on the full catalogue with results containing only
`color-contrast: 1.0` (every other audit id absent), `calculate_score`
returns exactly `8.93` (= round(10/112·100, 2)). -/
theorem single_color_contrast_score :
    calculate_score ⟨onlyColorContrast⟩ false = 893/100 := by
  simp only [calculate_score, calculate_score_core, final_score_val, scoreLoop,
    rawScore, FULL_AUDIT_REFS, onlyColorContrast]
  simp
  norm_num [pyRound2, roundHalfEvenInt]

/-- A one-entry catalogue whose single weight is `1`. -/
def tieCatalogue : List AuditRef := [⟨"probe", 1⟩]

/-- Results giving that single audit the score `1/800` (= 0.00125), so
that the exact aggregate `0.125` is a tie on the second decimal. -/
def tieResults : Results := fun s =>
  if s = "probe" then some ⟨some (1/800), 0⟩ else none

/-- C4 counterexample: on the catalogue `[probe: weight 1]` with score
`1/800`, the exact aggregate is `0.125`; Python's `round` (ties to
even) yields `0.12`, while the claimed half-up rounding yields `0.13`,
so `calculate_score` does not round half-up. -/
theorem rounding_is_not_half_up :
    calculate_score_core tieCatalogue tieResults = 12/100 ∧
      specRoundHalfUp2
        (specWeightedSum tieCatalogue tieResults / specWeightSum tieCatalogue * 100) =
        13/100 ∧
      ¬ calculate_score_core tieCatalogue tieResults =
          specRoundHalfUp2
            (specWeightedSum tieCatalogue tieResults / specWeightSum tieCatalogue * 100) := by
  refine ⟨?_, ?_, ?_⟩ <;>
    · simp only [calculate_score_core, final_score_val, scoreLoop, rawScore,
        specWeightedSum, specWeightSum, tieCatalogue, tieResults]
      simp
      all_goals norm_num [pyRound2, roundHalfEvenInt, specRoundHalfUp2, specRoundHalfUpInt]

/-- C4 amended: for every catalogue and results mapping with positive
total weight, `calculate_score` returns the exact quotient
`totalWeightedScore / totalWeight * 100` rounded to 2 decimal places
half-to-even (Python's banker's rounding), not half-up. -/
theorem score_rounds_half_even (refs : List AuditRef) (audits : Results)
    (h : 0 < specWeightSum refs) :
    calculate_score_core refs audits =
      pyRound2 (specWeightedSum refs audits / specWeightSum refs * 100) :=
  calculate_score_core_eq refs audits h

/-- Witness for C4 amended at the tie catalogue and results. -/
theorem score_rounds_half_even_witness :
    0 < specWeightSum tieCatalogue ∧
      calculate_score_core tieCatalogue tieResults =
        pyRound2 (specWeightedSum tieCatalogue tieResults / specWeightSum tieCatalogue * 100) :=
  ⟨by norm_num [specWeightSum, tieCatalogue],
   score_rounds_half_even tieCatalogue tieResults
     (by norm_num [specWeightSum, tieCatalogue])⟩

/-- The empty results mapping (no probe ran at all). -/
def emptyResults : Results := fun _ => none

lemma specWeightedSum_emptyResults (refs : List AuditRef) :
    specWeightedSum refs emptyResults = 0 := by
  induction refs with
  | nil => simp [specWeightedSum]
  | cons r rest ih =>
      simp only [specWeightedSum, List.map_cons, List.sum_cons] at ih ⊢
      simp [rawScore, emptyResults, ih]

lemma specWeightSum_natCast (refs : List AuditRef) :
    specWeightSum refs = ((refs.map AuditRef.weight).sum : ℕ) := by
  induction refs with
  | nil => simp [specWeightSum]
  | cons r rest ih =>
      simp only [specWeightSum, List.map_cons, List.sum_cons] at *
      rw [ih]
      push_cast
      ring

lemma pyRound2_zero : pyRound2 0 = 0 := by
  norm_num [pyRound2, roundHalfEvenInt]

/-- C5: for every catalogue, `calculate_score` on an empty results
mapping returns `0`; and when the catalogue's total weight is `0` the
guard takes the `else 0` branch, so `calculate_score` returns `0` on any
results instead of dividing by zero. (The Lean model is a total
function, reflecting that no exception can arise.) -/
theorem empty_results_and_zero_weight_score_zero
    (refs : List AuditRef) (audits : Results) :
    calculate_score_core refs emptyResults = 0 ∧
      ((refs.map AuditRef.weight).sum = 0 → calculate_score_core refs audits = 0) := by
  constructor
  · unfold calculate_score_core final_score_val
    rw [scoreLoop_eq]
    simp [specWeightedSum_emptyResults, pyRound2_zero]
  · intro h
    unfold calculate_score_core final_score_val
    rw [scoreLoop_eq]
    have hz : specWeightSum refs = 0 := by
      rw [specWeightSum_natCast, h]
      norm_num
    simp [hz, pyRound2_zero]

/-- A one-entry catalogue whose single weight is `0`. -/
def zeroWeightCatalogue : List AuditRef := [⟨"probe-zero", 0⟩]

/-- Witness for C5 at the full catalogue and at a zero-weight
catalogue. -/
theorem empty_results_and_zero_weight_witness :
    calculate_score_core FULL_AUDIT_REFS emptyResults = 0 ∧
      calculate_score_core zeroWeightCatalogue onlyColorContrast = 0 :=
  ⟨(empty_results_and_zero_weight_score_zero FULL_AUDIT_REFS emptyResults).1,
   (empty_results_and_zero_weight_score_zero zeroWeightCatalogue onlyColorContrast).2
     (by decide)⟩

lemma rawScore_congr {R1 R2 : Results} {s : String} (h : R1 s = R2 s) :
    rawScore R1 s = rawScore R2 s := by
  simp [rawScore, h]

lemma specWeightedSum_congr {R1 R2 : Results} (refs : List AuditRef)
    (h : ∀ a ∈ refs, rawScore R1 a.id = rawScore R2 a.id) :
    specWeightedSum refs R1 = specWeightedSum refs R2 := by
  unfold specWeightedSum
  induction refs with
  | nil => simp
  | cons a rest ih =>
      simp only [List.map_cons, List.sum_cons]
      rw [h a (List.mem_cons_self a rest),
        ih (fun b hb => h b (List.mem_cons_of_mem a hb))]

/-- The aggregate depends on the results mapping only through the raw
scores of the catalogue's own audit ids. -/
lemma calculate_score_core_congr (refs : List AuditRef) {R1 R2 : Results}
    (h : ∀ a ∈ refs, rawScore R1 a.id = rawScore R2 a.id) :
    calculate_score_core refs R1 = calculate_score_core refs R2 := by
  unfold calculate_score_core final_score_val
  rw [scoreLoop_eq, scoreLoop_eq, specWeightedSum_congr refs h]

/-- C6: null-vs-absent equivalence — for every catalogue and every pair
of results mappings identical except that one maps `X` to a result whose
score is null while the other omits `X` entirely, the score is the
same. -/
theorem null_score_equals_absent (refs : List AuditRef) (X : String)
    (R1 R2 : Results) (r : AuditResult)
    (h1 : R1 X = some r) (hnull : r.score = none) (h2 : R2 X = none)
    (hagree : ∀ y, y ≠ X → R1 y = R2 y) :
    calculate_score_core refs R1 = calculate_score_core refs R2 := by
  apply calculate_score_core_congr
  intro a _
  by_cases hx : a.id = X
  · rw [hx]
    simp [rawScore, h1, h2, hnull]
  · exact rawScore_congr (hagree a.id hx)

/-- Results mapping `color-contrast` to a result with a null score. -/
def nullColorContrast : Results := fun s =>
  if s = "color-contrast" then some ⟨none, 0⟩ else none

/-- Witness for C6: on the full catalogue, a null-scored
`color-contrast` scores the same as no `color-contrast` at all. -/
theorem null_score_equals_absent_witness :
    calculate_score_core FULL_AUDIT_REFS nullColorContrast =
      calculate_score_core FULL_AUDIT_REFS emptyResults :=
  null_score_equals_absent FULL_AUDIT_REFS "color-contrast"
    nullColorContrast emptyResults ⟨none, 0⟩ rfl rfl rfl
    (fun y hy => by simp [nullColorContrast, emptyResults, hy])

/-- C10: noninterference of unknown audit ids — two results mappings
that agree on every audit id listed in the catalogue (but may differ
arbitrarily on ids outside it) receive the same score. -/
theorem unknown_ids_do_not_interfere (refs : List AuditRef)
    (R1 R2 : Results) (h : ∀ a ∈ refs, R1 a.id = R2 a.id) :
    calculate_score_core refs R1 = calculate_score_core refs R2 :=
  calculate_score_core_congr refs (fun a ha => rawScore_congr (h a ha))

/-- Results containing only an audit id that no catalogue lists. -/
def unknownIdResults : Results := fun s =>
  if s = "some-unknown-audit" then some ⟨some 1, 7⟩ else none

/-- Witness for C10: on the full catalogue, results holding only an
unknown audit id score the same as empty results. -/
theorem unknown_ids_do_not_interfere_witness :
    calculate_score_core FULL_AUDIT_REFS unknownIdResults =
      calculate_score_core FULL_AUDIT_REFS emptyResults :=
  unknown_ids_do_not_interfere FULL_AUDIT_REFS unknownIdResults emptyResults
    (by decide)

/-- Difference of two weighted sums over a catalogue containing exactly
one entry with id `X` (of weight `w`), when the per-id values agree away
from `X`. -/
lemma weightedSum_sub_single (X : String) (w : ℕ) (f g : String → ℚ)
    (hother : ∀ y, y ≠ X → f y = g y) :
    ∀ refs : List AuditRef, refs.filter (fun a => a.id == X) = [⟨X, w⟩] →
      (refs.map (fun a => f a.id * (a.weight : ℚ))).sum -
        (refs.map (fun a => g a.id * (a.weight : ℚ))).sum = (f X - g X) * w := by
  intro refs
  induction refs with
  | nil => intro h; simp at h
  | cons a rest ih =>
      intro h
      rw [List.filter_cons] at h
      by_cases hx : (a.id == X) = true
      · rw [if_pos hx] at h
        have ha : a = ⟨X, w⟩ := (List.cons_eq_cons.mp h).1
        have hrest : rest.filter (fun a => a.id == X) = [] :=
          (List.cons_eq_cons.mp h).2
        have hmaps :
            (rest.map (fun a => f a.id * (a.weight : ℚ))) =
              (rest.map (fun a => g a.id * (a.weight : ℚ))) := by
          apply List.map_congr_left
          intro b hb
          have hbX : ¬ (b.id == X) = true := by
            have := List.filter_eq_nil_iff.mp hrest b hb
            simpa using this
          rw [hother b.id (by simpa using hbX)]
        simp only [List.map_cons, List.sum_cons, hmaps, ha]
        ring
      · rw [if_neg hx] at h
        have haX : a.id ≠ X := by simpa using hx
        simp only [List.map_cons, List.sum_cons, hother a.id haX]
        have := ih h
        linarith

/-- Results mapping only `color-contrast` to the score `0.5`. -/
def halfColorContrast : Results := fun s =>
  if s = "color-contrast" then some ⟨some (1/2), 0⟩ else none

/-- C7 counterexample: on the full catalogue, with `R1` holding only
`color-contrast: 0.5` and `R2` empty, the difference of the two
(rounded) scores is `4.46 - 0 = 4.46`, which is not the exact value
`0.5·10/112·100 = 125/28`; rounding breaks the claimed exact
equality. -/
theorem rounded_score_difference_not_exact :
    ¬ (calculate_score ⟨halfColorContrast⟩ false -
          calculate_score ⟨emptyResults⟩ false =
        (1/2 * 10) / specWeightSum FULL_AUDIT_REFS * 100) := by
  simp only [calculate_score, calculate_score_core, final_score_val, scoreLoop,
    rawScore, specWeightSum, FULL_AUDIT_REFS, halfColorContrast, emptyResults]
  simp
  norm_num [pyRound2, roundHalfEvenInt]

/-- C7 amended: the weight-always-counted property holds of the
pre-rounding aggregate `final_score`: for a catalogue containing exactly
one entry with id `X` (of weight `w`) and positive total weight, with
`R1` mapping `X` to score `0.5`, `R2` omitting `X`, and the mappings
agreeing elsewhere, the difference of the unrounded aggregates is
exactly `(0.5·w) / totalWeight · 100`. -/
theorem weight_always_counted_unrounded (refs : List AuditRef) (X : String)
    (w : ℕ) (R1 R2 : Results) (r : AuditResult)
    (hfilter : refs.filter (fun a => a.id == X) = [⟨X, w⟩])
    (h1 : R1 X = some r) (hscore : r.score = some (1/2)) (h2 : R2 X = none)
    (hagree : ∀ y, y ≠ X → R1 y = R2 y)
    (hw : 0 < specWeightSum refs) :
    final_score_val refs R1 - final_score_val refs R2 =
      (1/2 * (w : ℚ)) / specWeightSum refs * 100 := by
  have hsub : specWeightedSum refs R1 - specWeightedSum refs R2 = 1/2 * (w : ℚ) := by
    have hd := weightedSum_sub_single X w (rawScore R1) (rawScore R2)
      (fun y hy => rawScore_congr (hagree y hy)) refs hfilter
    unfold specWeightedSum
    rw [hd]
    simp [rawScore, h1, h2, hscore]
  unfold final_score_val
  rw [scoreLoop_eq, scoreLoop_eq]
  simp only [zero_add, if_pos hw]
  have hring :
      specWeightedSum refs R1 / specWeightSum refs * 100 -
          specWeightedSum refs R2 / specWeightSum refs * 100 =
        (specWeightedSum refs R1 - specWeightedSum refs R2) /
          specWeightSum refs * 100 := by
    ring
  rw [hring, hsub]

/-- Witness for C7 amended: full catalogue, `color-contrast: 0.5`
versus absent. -/
theorem weight_always_counted_unrounded_witness :
    final_score_val FULL_AUDIT_REFS halfColorContrast -
        final_score_val FULL_AUDIT_REFS emptyResults =
      (1/2 * ((10 : ℕ) : ℚ)) / specWeightSum FULL_AUDIT_REFS * 100 :=
  weight_always_counted_unrounded FULL_AUDIT_REFS "color-contrast" 10
    halfColorContrast emptyResults ⟨some (1/2), 0⟩ (by decide) rfl rfl rfl
    (fun y hy => by simp [halfColorContrast, emptyResults, hy])
    (by norm_num [specWeightSum, FULL_AUDIT_REFS])

/-- Rounding to the nearest integer with ties to even moves a value by
at most one half. -/
lemma roundHalfEvenInt_sub_le (y : ℚ) : |((roundHalfEvenInt y : ℤ) : ℚ) - y| ≤ 1/2 := by
  unfold roundHalfEvenInt
  have h0 : ((⌊y⌋ : ℤ) : ℚ) ≤ y := Int.floor_le y
  have h1 : y < ⌊y⌋ + 1 := Int.lt_floor_add_one y
  by_cases hlt : y - (⌊y⌋ : ℚ) < 1/2
  · rw [if_pos hlt, abs_le]
    constructor <;> linarith
  · rw [if_neg hlt]
    by_cases hgt : (1:ℚ)/2 < y - (⌊y⌋ : ℚ)
    · rw [if_pos hgt]
      push_cast
      rw [abs_le]
      constructor <;> linarith
    · rw [if_neg hgt]
      by_cases hev : ⌊y⌋ % 2 = 0
      · rw [if_pos hev, abs_le]
        constructor <;> linarith
      · rw [if_neg hev]
        push_cast
        rw [abs_le]
        constructor <;> linarith

/-- `Int.log 2` agrees with any explicitly verified power-of-two
bracket. -/
lemma Int_log_two_eq {x : ℚ} {e : ℤ} (hx : 0 < x)
    (h1 : (2:ℚ)^e ≤ x) (h2 : x < (2:ℚ)^(e+1)) : Int.log 2 x = e := by
  have hb : (1:ℕ) < 2 := one_lt_two
  have hc : ((2:ℕ):ℚ) = (2:ℚ) := by norm_num
  have hle := (Int.zpow_le_iff_le_log hb hx).mp (by rw [hc]; exact h1)
  have hlt := (Int.lt_zpow_iff_log_lt hb hx).mp (by rw [hc]; exact h2)
  omega

/-- Closed form of `fl64` at a positive value with an explicitly
verified exponent bracket. -/
lemma fl64_eq_of_bounds {x : ℚ} {e : ℤ} (hx : 0 < x)
    (h1 : (2:ℚ)^e ≤ x) (h2 : x < (2:ℚ)^(e+1)) :
    fl64 x =
      ((roundHalfEvenInt (x * (2:ℚ)^((52:ℤ) - e)) : ℤ) : ℚ) * (2:ℚ)^(e - (52:ℤ)) := by
  unfold fl64
  rw [if_neg (ne_of_gt hx), if_pos hx, Int_log_two_eq hx h1 h2]

/-- Relative error of one binary64 rounding at a positive value:
`fl64` moves it by at most `x·2⁻⁵³`. -/
lemma fl64_pos_error {x : ℚ} (hx : 0 < x) :
    |((roundHalfEvenInt (x * (2:ℚ)^((52:ℤ) - Int.log 2 x)) : ℤ) : ℚ) *
        (2:ℚ)^(Int.log 2 x - (52:ℤ)) - x| ≤ x * (2:ℚ)^(-(53):ℤ) := by
  set e := Int.log 2 x with he
  have h2ne : (2:ℚ) ≠ 0 := by norm_num
  have hc : ((2:ℕ):ℚ) = (2:ℚ) := by norm_num
  have hle : (2:ℚ)^e ≤ x := by
    have := Int.zpow_log_le_self (b := 2) one_lt_two hx
    rwa [hc] at this
  have hz : (2:ℚ)^((52:ℤ)-e) * (2:ℚ)^(e-(52:ℤ)) = 1 := by
    rw [← zpow_add₀ h2ne]
    norm_num
  set m : ℚ := ((roundHalfEvenInt (x * (2:ℚ)^((52:ℤ) - e)) : ℤ) : ℚ) with hm
  have key : m * (2:ℚ)^(e-(52:ℤ)) - x =
      (m - x * (2:ℚ)^((52:ℤ)-e)) * (2:ℚ)^(e-(52:ℤ)) := by
    have : x = x * ((2:ℚ)^((52:ℤ)-e) * (2:ℚ)^(e-(52:ℤ))) := by rw [hz, mul_one]
    calc m * (2:ℚ)^(e-(52:ℤ)) - x
        = m * (2:ℚ)^(e-(52:ℤ)) - x * ((2:ℚ)^((52:ℤ)-e) * (2:ℚ)^(e-(52:ℤ))) := by
          rw [hz, mul_one]
      _ = (m - x * (2:ℚ)^((52:ℤ)-e)) * (2:ℚ)^(e-(52:ℤ)) := by ring
  rw [key, abs_mul]
  have hpow_pos : (0:ℚ) < (2:ℚ)^(e-(52:ℤ)) := zpow_pos (by norm_num) _
  rw [abs_of_pos hpow_pos]
  have hr := roundHalfEvenInt_sub_le (x * (2:ℚ)^((52:ℤ)-e))
  have step1 : |m - x * (2:ℚ)^((52:ℤ)-e)| * (2:ℚ)^(e-(52:ℤ)) ≤
      (1/2) * (2:ℚ)^(e-(52:ℤ)) :=
    mul_le_mul_of_nonneg_right hr (le_of_lt hpow_pos)
  have hhalf : (1/2:ℚ) * (2:ℚ)^(e-(52:ℤ)) = (2:ℚ)^(e-(53:ℤ)) := by
    rw [show (1/2:ℚ) = (2:ℚ)^(-(1):ℤ) from by norm_num, ← zpow_add₀ h2ne]
    congr 1
    ring
  have hfin : (2:ℚ)^(e-(53:ℤ)) ≤ x * (2:ℚ)^(-(53):ℤ) := by
    rw [show e-(53:ℤ) = e + (-(53):ℤ) from by ring, zpow_add₀ h2ne]
    exact mul_le_mul_of_nonneg_right hle (le_of_lt (zpow_pos (by norm_num) _))
  linarith

/-- Relative error of one binary64 rounding: `|fl64 x − x| ≤ |x|·2⁻⁵³`. -/
lemma fl64_error (x : ℚ) : |fl64 x - x| ≤ |x| * (2:ℚ)^(-(53):ℤ) := by
  rcases lt_trichotomy x 0 with hneg | rfl | hpos
  · have hpos' : 0 < -x := by linarith
    unfold fl64
    rw [if_neg (ne_of_lt hneg), if_neg (not_lt.mpr (le_of_lt hneg))]
    rw [show ∀ A : ℚ, -A - x = -(A - -x) from fun A => by ring, abs_neg,
      abs_of_neg hneg]
    exact fl64_pos_error hpos'
  · simp [fl64]
  · unfold fl64
    rw [if_neg (ne_of_gt hpos), if_pos hpos, abs_of_pos hpos]
    exact fl64_pos_error hpos

/-- Results making the full-catalogue aggregate round to exactly 0.23:
`color-contrast` alone with score 16/625 = 0.0256 gives the aggregate
0.0256·10/112·100 = 8/35 = 0.2285…, which rounds to 0.23. -/
def pointTwoThreeResults : Results := fun s =>
  if s = "color-contrast" then some ⟨some (16/625), 0⟩ else none

lemma score_pointTwoThree :
    calculate_score ⟨pointTwoThreeResults⟩ false = 23/100 := by
  simp only [calculate_score, calculate_score_core, final_score_val, scoreLoop,
    rawScore, FULL_AUDIT_REFS, pointTwoThreeResults]
  simp
  norm_num [pyRound2, roundHalfEvenInt]

/-- The binary64 value of 0.23 (what Python's `round(x, 2)` actually
returns when the aggregate rounds to 0.23). -/
lemma fl64_of_023 :
    fl64 (23/100 : ℚ) = 8286623314361713/36028797018963968 := by
  rw [fl64_eq_of_bounds (e := -3) (by norm_num) (by norm_num) (by norm_num)]
  norm_num [roundHalfEvenInt]

/-- The binary64 quotient of that double by 100 — the category score the
program stores (Python: `0.23 / 100 = 0.0023`). -/
lemma fl64_of_023_div_100 :
    fl64 ((8286623314361713/36028797018963968 : ℚ) / 100) =
      5303438921191496/2305843009213693952 := by
  rw [fl64_eq_of_bounds (e := -9) (by norm_num) (by norm_num) (by norm_num)]
  norm_num [roundHalfEvenInt]

/-- The binary64 product of the stored score with 100 (Python:
`0.0023 * 100 = 0.22999999999999998`). -/
lemma fl64_of_recovery :
    fl64 ((5303438921191496/2305843009213693952 : ℚ) * 100) =
      8286623314361712/36028797018963968 := by
  rw [show ((5303438921191496/2305843009213693952 : ℚ) * 100) =
      16573246628723425/72057594037927936 from by norm_num]
  rw [fl64_eq_of_bounds (e := -3) (by norm_num) (by norm_num) (by norm_num)]
  norm_num [roundHalfEvenInt]

/-- C8 counterexample: when the aggregator returns `0.23`, the stored
category score is the double `0.23/100 = 0.0023`, and multiplying it
back by 100 — whether exactly or as the double product
`0.22999999999999998` — does not recover the aggregator's result. -/
theorem stored_score_times_100_not_exact :
    ¬ ((build_report "https://example.com" "https://example.com" 0
            pointTwoThreeResults false).category.score * 100 =
        calculate_score ⟨pointTwoThreeResults⟩ false) ∧
      ¬ (fl64 ((build_report "https://example.com" "https://example.com" 0
            pointTwoThreeResults false).category.score * 100) =
          fl64 (calculate_score ⟨pointTwoThreeResults⟩ false)) := by
  have hscore : (build_report "https://example.com" "https://example.com" 0
      pointTwoThreeResults false).category.score =
      fl64 (fl64 (calculate_score ⟨pointTwoThreeResults⟩ false) / 100) := rfl
  constructor
  · rw [hscore, score_pointTwoThree, fl64_of_023, fl64_of_023_div_100]
    norm_num
  · rw [hscore, score_pointTwoThree, fl64_of_023, fl64_of_023_div_100,
      fl64_of_recovery]
    norm_num

/-- C8 amended: for every assembled report, the stored category score
times 100 recovers the aggregator's value only approximately — to
within a relative error of `2⁻⁵¹` (a few double ulps, from the two
binary64 roundings of `final_score` and of `final_score / 100`), not
exactly. -/
theorem category_score_times_100_approx (url fu : String) (t : ℚ)
    (audits : Results) (is_lite : Bool) :
    |(build_report url fu t audits is_lite).category.score * 100 -
        calculate_score ⟨(build_report url fu t audits is_lite).audits⟩ is_lite| ≤
      |calculate_score ⟨(build_report url fu t audits is_lite).audits⟩ is_lite| *
        (2:ℚ)^(-(51):ℤ) := by
  have haud : (build_report url fu t audits is_lite).audits = audits := rfl
  rw [haud]
  set fs := calculate_score ⟨audits⟩ is_lite with hfs
  have hscore : (build_report url fu t audits is_lite).category.score =
      fl64 (fl64 fs / 100) := rfl
  rw [hscore]
  set d := fl64 fs with hd
  set st := fl64 (d / 100) with hst
  have h1 : |d - fs| ≤ |fs| * (2:ℚ)^(-(53):ℤ) := fl64_error fs
  have h2 : |st - d/100| ≤ |d/100| * (2:ℚ)^(-(53):ℤ) := fl64_error (d/100)
  have hc53 : (2:ℚ)^(-(53):ℤ) = 1/9007199254740992 := by norm_num
  have hc51 : (2:ℚ)^(-(51):ℤ) = 1/2251799813685248 := by norm_num
  rw [hc53] at h1 h2
  rw [hc51]
  have habs_d100 : |d/100| = |d| / 100 := by
    rw [abs_div]
    norm_num
  rw [habs_d100] at h2
  have htri : |st*100 - fs| ≤ |st*100 - d| + |d - fs| := abs_sub_le _ _ _
  have hmul : |st*100 - d| = |st - d/100| * 100 := by
    rw [show st*100 - d = (st - d/100)*100 from by ring, abs_mul]
    norm_num
  rw [hmul] at htri
  have hd_le : |d| ≤ |fs| + |fs| * (1/9007199254740992) := by
    have := abs_sub_abs_le_abs_sub d fs
    linarith
  have hdc := mul_le_mul_of_nonneg_right hd_le
    (by norm_num : (0:ℚ) ≤ 1/9007199254740992)
  have hfs_nonneg : (0:ℚ) ≤ |fs| := abs_nonneg _
  linarith

/-- C9: every emitted report carries as `auditRefs` exactly the complete
static catalogue table for the chosen variant, in its original order,
independently of the audits mapping. -/
theorem report_auditRefs_is_catalogue (url fu : String) (t : ℚ)
    (audits : Results) (is_lite : Bool) :
    (build_report url fu t audits is_lite).category.auditRefs =
      if is_lite then LITE_AUDIT_REFS else FULL_AUDIT_REFS := rfl

end SilverSurfers
